import Mathlib

/-!
Verification of the osmnx plotting module (src/osmnx/plot.py): a shallow
embedding of its spatial-network rendering pipeline, followed by theorems
about edge-geometry resolution, extent and figure framing, quantile color
binning, street-width classification, layer z-ordering, route edge
selection, error propagation, and read-only use of the input graph.

Modelling conventions:
* Python floats are modelled as rationals; the module performs only field
  arithmetic on them.
* Matplotlib color strings and colormap names are opaque tokens, modelled
  as natural-number codes (the pipeline never inspects their content, it
  only stores and compares them); likewise OSM street-type names.
* Python exceptions (KeyError, IndexError, ValueError) are modelled by
  `PyErr` and `Except` results.
* The networkx multidigraph is modelled by `Graph`: a node table plus an
  edge list in iteration order. The iteration order of
  `G.edge[u][v].values()` and of the edge table produced by the
  graph-to-tabular conversion is the edge-list order restricted to the
  pair (u, v).
* Stateful rendering code is embedded by explicit state passing: `GM` is a
  state monad threading the graph through every rendering step, so that
  reads and (hypothetical) writes of the graph are explicit.
-/

/-- Python exception kinds raised by the plotting module's logic. -/
inductive PyErr where
  | keyError
  | indexError
  | valueError
  deriving DecidableEq, Repr

abbrev NodeId := Nat

/-- A graph node's data: x = longitude, y = latitude. -/
structure NodeData where
  x : ℚ
  y : ℚ
  deriving DecidableEq, Repr

/-- The `highway` edge attribute: a single street-type token or a list of
them (plot.py line 690 branches on `isinstance(data['highway'], list)`). -/
inductive HighwayAttr where
  | scalar (t : Nat)
  | list (ts : List Nat)
  deriving DecidableEq, Repr

/-- The edge attributes the plotting module reads: numeric `length`, the
optional `geometry` coordinate sequence, and the `highway` street type. -/
structure EdgeData where
  length : ℚ
  geometry : Option (List (ℚ × ℚ)) := none
  highway : HighwayAttr := HighwayAttr.scalar 0
  deriving DecidableEq, Repr

/-- One edge of the multidigraph, keyed by (u, v, key). -/
structure Edge where
  u : NodeId
  v : NodeId
  key : Nat
  data : EdgeData
  deriving DecidableEq, Repr

/-- The networkx multidigraph: node table and edge list in iteration order. -/
structure Graph where
  nodes : List (NodeId × NodeData)
  edges : List Edge
  deriving DecidableEq, Repr

/-- `G.node[n]` lookup. -/
def Graph.getNode (G : Graph) (n : NodeId) : Option NodeData :=
  (G.nodes.find? (fun p => p.1 == n)).map (fun p => p.2)

/-- The parallel edges `G.edge[u][v].values()`, in iteration order. -/
def Graph.edgesBetween (G : Graph) (u v : NodeId) : List EdgeData :=
  (G.edges.filter (fun e => e.u == u && e.v == v)).map (fun e => e.data)

/-- Effectful map over a list in the `Except` monad (short-circuits on the
first error, like a Python loop or comprehension). -/
def mapME {α β : Type} (g : α → Except PyErr β) : List α → Except PyErr (List β)
  | [] => Except.ok []
  | x :: xs =>
    match g x, mapME g xs with
    | Except.ok y, Except.ok ys => Except.ok (y :: ys)
    | Except.error e, _ => Except.error e
    | _, Except.error e => Except.error e

/-- Whether an `Except` result is a success. -/
def isOkB {α : Type} : Except PyErr α → Bool
  | Except.ok _ => true
  | Except.error _ => false

/-- Length of a successful list result. -/
def okLength {α : Type} : Except PyErr (List α) → Option Nat
  | Except.ok l => some l.length
  | Except.error _ => none

/-- The rendering monad: the graph is threaded explicitly through every
step, so a step that mutated the graph would have to return an updated
one. Failures are Python exceptions. -/
abbrev GM (α : Type) := StateT Graph (Except PyErr) α

/-- A read-only step computed from the current graph. -/
def readPure {α : Type} (h : Graph → α) : GM α := fun G => Except.ok (h G, G)

/-- A read-only step that can fail (a Python lookup). -/
def readE {α : Type} (h : Graph → Except PyErr α) : GM α :=
  fun G => (h G).map (fun a => (a, G))

/-- Effectful map over a list in the rendering monad. -/
def mapMG {α β : Type} (g : α → GM β) : List α → GM (List β)
  | [] => pure []
  | x :: xs => do
    let y ← g x
    let ys ← mapMG g xs
    pure (y :: ys)

/-- Straight node-to-node segment (plot.py lines 267-273 and 430-436):
the two-point polyline between the endpoint node coordinates; a missing
node is a Python KeyError. -/
def straight_line (G : Graph) (u v : NodeId) : Except PyErr (List (ℚ × ℚ)) :=
  match G.getNode u, G.getNode v with
  | some du, some dv => Except.ok [(du.x, du.y), (dv.x, dv.y)]
  | _, _ => Except.error PyErr.keyError

/-- Resolve one edge to the polyline to draw (plot.py lines 261-273, and
identically lines 424-436): the stored geometry verbatim when present and
`use_geom` is set, else the straight node-to-node segment. -/
def edge_line (G : Graph) (use_geom : Bool) (u v : NodeId) (data : EdgeData) :
    Except PyErr (List (ℚ × ℚ)) :=
  match data.geometry with
  | some g => if use_geom then Except.ok g else straight_line G u v
  | none => straight_line G u v

/-- `edge_line` as a rendering step. -/
def edge_lineM (use_geom : Bool) (u v : NodeId) (data : EdgeData) : GM (List (ℚ × ℚ)) :=
  readE (fun G => edge_line G use_geom u v data)

/-- Python `min(iterable, key=lambda x: x['length'])` over `acc :: rest`:
iterates left to right and keeps the first element attaining the minimal
length (a later element replaces the current one only when strictly
smaller). -/
def pyMinByLength (acc : EdgeData) : List EdgeData → EdgeData
  | [] => acc
  | x :: xs => pyMinByLength (if x.length < acc.length then x else acc) xs

/-- Parallel-edge selection for one route step (plot.py line 422):
`min([data for data in G.edge[u][v].values()], key=lambda x: x['length'])`;
a pair with no edge at all is a Python KeyError. -/
def pickRouteEdge (G : Graph) (u v : NodeId) : Except PyErr EdgeData :=
  match G.edgesBetween u v with
  | [] => Except.error PyErr.keyError
  | d :: ds => Except.ok (pyMinByLength d ds)

/-- `pickRouteEdge` as a rendering step. -/
def pickRouteEdgeM (u v : NodeId) : GM EdgeData :=
  readE (fun G => pickRouteEdge G u v)

/-- Modelled from the spec: the graph-to-tabular conversion `graph_to_gdfs`
(a collaborator not under src/) produces, for edges, a table with one row
per graph edge in edge iteration order, carrying at least the source node,
target node and the edge attributes (spec sections 4.2 and 6). -/
def gdf_edges (G : Graph) : List Edge := G.edges

/-- Modelled from the spec: with `fill_edge_geometry=True` the conversion
falls back, for edges without curve data, to their straight-line endpoint
segment (spec section 4.1). -/
def gdf_filled_lines (G : Graph) : Except PyErr (List (List (ℚ × ℚ))) :=
  mapME (fun e =>
    match e.data.geometry with
    | some g => Except.ok g
    | none => straight_line G e.u e.v) G.edges

def foldMinQ (a : ℚ) (l : List ℚ) : ℚ := l.foldl min a

def foldMaxQ (a : ℚ) (l : List ℚ) : ℚ := l.foldl max a

/-- Modelled from the spec: `edges.total_bounds`, the enclosing rectangle
(west, south, east, north) of all (filled) edge geometries; an empty
geometry collection fails (spec section 4.1). -/
def gdf_total_bounds (G : Graph) : Except PyErr (ℚ × ℚ × ℚ × ℚ) :=
  match gdf_filled_lines G with
  | Except.error e => Except.error e
  | Except.ok ls =>
    match ls.flatten with
    | [] => Except.error PyErr.valueError
    | p :: ps =>
      Except.ok (foldMinQ p.1 (ps.map Prod.fst), foldMinQ p.2 (ps.map Prod.snd),
                 foldMaxQ p.1 (ps.map Prod.fst), foldMaxQ p.2 (ps.map Prod.snd))

/-- The keyword arguments of plot_graph the rendering logic reads
(plot.py lines 178-181), with the source's default values; color strings
are opaque codes. -/
structure PlotConfig where
  bbox : Option (ℚ × ℚ × ℚ × ℚ) := none
  fig_height : ℚ := 6
  fig_width : Option ℚ := none
  margin : ℚ := 1/50
  axis_off : Bool := true
  bgcolor : Nat := 0
  annotate : Bool := false
  node_color : Nat := 1
  node_size : ℚ := 15
  node_zorder : Int := 1
  edge_color : Nat := 2
  edge_linewidth : ℚ := 1
  use_geom : Bool := true
  deriving DecidableEq, Repr

/-- plot_graph's defaults (plot.py lines 178-181). -/
def defaultPlotConfig : PlotConfig := {}

/-- The static rendering plot_graph composes on the matplotlib axis:
figure dimensions, the batched edge line layer, the node scatter layer,
view limits and axis flags. -/
structure Fig where
  fig_width : ℚ
  fig_height : ℚ
  bg : Nat
  edge_lines : List (List (ℚ × ℚ))
  edge_color : Nat
  edge_zorder : Nat
  node_xs : List ℚ
  node_ys : List ℚ
  node_color : Nat
  node_zorder : Int
  ylim : ℚ × ℚ
  xlim : ℚ × ℚ
  axis_off : Bool
  annots : List (NodeId × ℚ × ℚ)
  deriving DecidableEq, Repr

/-- Bounding-box resolution of plot_graph (plot.py lines 242-247): the
explicit bbox parameter (north, south, east, west), or the spatial extent
of the edge geometries reordered from total_bounds. -/
def bbox_resolve (cfg : PlotConfig) (G : Graph) : Except PyErr (ℚ × ℚ × ℚ × ℚ) :=
  match cfg.bbox with
  | some b => Except.ok b
  | none => (gdf_total_bounds G).map (fun tb => (tb.2.2.2, tb.2.1, tb.2.2.1, tb.1))

/-- The pure figure assembly of plot_graph (plot.py lines 249-303): derived
figure width (line 250-252), edge line collection with zorder 2 (line 276),
node scatter with the configured zorder (line 281), margin-expanded view
limits (lines 284-287), axis flag and annotations. -/
def mkFig (cfg : PlotConfig) (node_Xs node_Ys : List ℚ) (nsew : ℚ × ℚ × ℚ × ℚ)
    (lines : List (List (ℚ × ℚ))) (annots : List (NodeId × ℚ × ℚ)) : Fig :=
  let north := nsew.1
  let south := nsew.2.1
  let east := nsew.2.2.1
  let west := nsew.2.2.2
  let bbox_aspect := (north - south) / (east - west)
  let fig_width :=
    match cfg.fig_width with
    | none => cfg.fig_height / bbox_aspect
    | some w => w
  let margin_ns := (north - south) * cfg.margin
  let margin_ew := (east - west) * cfg.margin
  { fig_width := fig_width
    fig_height := cfg.fig_height
    bg := cfg.bgcolor
    edge_lines := lines
    edge_color := cfg.edge_color
    edge_zorder := 2
    node_xs := node_Xs
    node_ys := node_Ys
    node_color := cfg.node_color
    node_zorder := cfg.node_zorder
    ylim := (south - margin_ns, north + margin_ns)
    xlim := (west - margin_ew, east + margin_ew)
    axis_off := cfg.axis_off
    annots := annots }

/-- Embedding of plot_graph (plot.py lines 178-307). The graph is threaded
through every step; drawing-surface effects are captured in the returned
`Fig`. File saving and display (save_and_show) are external I/O and are
not modelled. -/
def plot_graphM (cfg : PlotConfig) : GM Fig := do
  let nodeVals ← readPure (fun G => G.nodes.map (fun p => p.2))
  let nsew ← readE (bbox_resolve cfg)
  let es ← readPure (fun G => G.edges)
  let lines ← mapMG (fun e => edge_lineM cfg.use_geom e.u e.v e.data) es
  let annots ←
    if cfg.annotate then
      readPure (fun G => G.nodes.map (fun p => (p.1, p.2.x, p.2.y)))
    else
      pure []
  pure (mkFig cfg (nodeVals.map (fun d => d.x)) (nodeVals.map (fun d => d.y)) nsew lines annots)

/-- The route-specific keyword arguments of plot_graph_route
(plot.py lines 314-316), with the source's default values. -/
structure RouteConfig where
  route_color : Nat := 3
  route_linewidth : ℚ := 4
  route_alpha : ℚ := 1/2
  orig_dest_node_alpha : ℚ := 1/2
  orig_dest_node_size : ℚ := 100
  orig_dest_node_color : Nat := 3
  orig_dest_point_color : Nat := 4
  deriving DecidableEq, Repr

/-- plot_graph_route's route defaults (plot.py lines 314-316). -/
def defaultRouteConfig : RouteConfig := {}

/-- The composed route rendering: the background graph figure plus the
origin/destination marker layer and the route overlay layer. -/
structure RouteFig where
  base : Fig
  od_lats : ℚ × ℚ
  od_lons : ℚ × ℚ
  od_size : ℚ
  od_color : Nat
  od_zorder : Nat
  route_lines : List (List (ℚ × ℚ))
  route_color : Nat
  route_zorder : Nat
  deriving DecidableEq, Repr

/-- Origin/destination marker resolution of plot_graph_route (plot.py
lines 399-411): when either override point is absent, both markers sit at
the route's first and last node coordinates with the node marker color;
only when both points are supplied are they used, with the distinct point
color. Returns ((lats), (lons), color). -/
def od_resolve (rcfg : RouteConfig) (o dnode : NodeId)
    (origin_point destination_point : Option (ℚ × ℚ)) (G : Graph) :
    Except PyErr ((ℚ × ℚ) × (ℚ × ℚ) × Nat) :=
  match origin_point, destination_point with
  | some p, some q => Except.ok ((p.1, q.1), (p.2, q.2), rcfg.orig_dest_point_color)
  | _, _ =>
    match G.getNode o, G.getNode dnode with
    | some dO, some dD => Except.ok ((dO.y, dD.y), (dO.x, dD.x), rcfg.orig_dest_node_color)
    | _, _ => Except.error PyErr.keyError

/-- One route step of plot_graph_route (plot.py lines 420-436): select the
shortest parallel edge for the pair, then resolve its polyline. -/
def route_stepM (use_geom : Bool) (uv : NodeId × NodeId) : GM (List (ℚ × ℚ)) := do
  let data ← pickRouteEdgeM uv.1 uv.2
  edge_lineM use_geom uv.1 uv.2 data

/-- The pure route-figure assembly of plot_graph_route (plot.py lines
413-440): origin/destination scatter with zorder 4 (line 415), route line
collection with zorder 3 (line 439). -/
def mkRouteFig (rcfg : RouteConfig) (fig : Fig) (odc : (ℚ × ℚ) × (ℚ × ℚ) × Nat)
    (rlines : List (List (ℚ × ℚ))) : RouteFig :=
  { base := fig
    od_lats := odc.1
    od_lons := odc.2.1
    od_size := rcfg.orig_dest_node_size
    od_color := odc.2.2
    od_zorder := 4
    route_lines := rlines
    route_color := rcfg.route_color
    route_zorder := 3 }

/-- Embedding of plot_graph_route (plot.py lines 310-444): plot the graph,
place origin/destination markers (route endpoints or caller-supplied
override points), then overlay the route polylines. An empty route is a
Python IndexError at `route[0]`. -/
def plot_graph_routeM (cfg : PlotConfig) (rcfg : RouteConfig) (route : List NodeId)
    (origin_point destination_point : Option (ℚ × ℚ)) : GM RouteFig := do
  let fig ← plot_graphM cfg
  match route with
  | [] => readE (fun _ => Except.error PyErr.indexError)
  | o :: rest => do
    let dnode := List.getLastD rest o
    let odc ← readE (od_resolve rcfg o dnode origin_point destination_point)
    let pairs := (o :: rest).zip rest
    let rlines ← mapMG (route_stepM cfg.use_geom) pairs
    pure (mkRouteFig rcfg fig odc rlines)

/-- Route edge-row selection of plot_route_folium (plot.py line 593):
`index[0]` of the edge-table rows whose u and v columns match — the first
matching row in table order; an empty selection is a Python IndexError. -/
def folium_route_edge (G : Graph) (u v : NodeId) : Except PyErr Edge :=
  match (gdf_edges G).filter (fun e => e.u == u && e.v == v) with
  | [] => Except.error PyErr.indexError
  | e :: _ => Except.ok e

/-- The route edge rows plot_route_folium draws (plot.py lines 592-594). -/
def plot_route_folium_edges (G : Graph) (route : List NodeId) : Except PyErr (List Edge) :=
  mapME (fun uv => folium_route_edge G uv.1 uv.2) (route.zip route.tail)

/-- Street type of an edge (plot.py line 690): the first element when the
highway attribute is a list, else the attribute itself; indexing an empty
list is a Python IndexError. -/
def street_type_of : HighwayAttr → Except PyErr Nat
  | HighwayAttr.scalar t => Except.ok t
  | HighwayAttr.list [] => Except.error PyErr.indexError
  | HighwayAttr.list (t :: _) => Except.ok t

/-- Street-width classification of plot_figure_ground (plot.py lines
690-694): the mapped width when the street type is a key of the mapping,
else the caller-supplied default width. -/
def street_width_of (street_widths : List (Nat × ℚ)) (default_width : ℚ)
    (h : HighwayAttr) : Except PyErr ℚ :=
  match street_type_of h with
  | Except.error e => Except.error e
  | Except.ok t =>
    match street_widths.find? (fun p => p.1 == t) with
    | some p => Except.ok p.2
    | none => Except.ok default_width

/-- The per-edge linewidth loop of plot_figure_ground (plot.py lines 688-694). -/
def figure_ground_linewidths (G : Graph) (street_widths : List (Nat × ℚ))
    (default_width : ℚ) : Except PyErr (List ℚ) :=
  mapME (fun e => street_width_of street_widths default_width e.data.highway) G.edges

/-- View-limit computation of plot_shape (plot.py lines 71-75), from the
shapely bounds tuple (west, south, east, north): returns (ylim, xlim). -/
def plot_shape_limits (bounds : ℚ × ℚ × ℚ × ℚ) (margin : ℚ) : (ℚ × ℚ) × (ℚ × ℚ) :=
  let west := bounds.1
  let south := bounds.2.1
  let east := bounds.2.2.1
  let north := bounds.2.2.2
  let margin_ns := (north - south) * margin
  let margin_ew := (east - west) * margin
  ((south - margin_ns, north + margin_ns), (west - margin_ew, east + margin_ew))

/-- The attribute values of all edges, in edge iteration order
(plot.py line 107). -/
def attr_values (G : Graph) (attr : EdgeData → ℚ) : List ℚ :=
  G.edges.map (fun e => attr e.data)

/-- The value distribution sorted ascending (as numpy sorts it inside the
quantile computation). -/
def sortedVals (vals : List ℚ) : List ℚ :=
  List.insertionSort (fun a b => a ≤ b) vals

/-- Indexing clamped to the last element (numpy's interpolation never
reads past the end: at the upper boundary the fractional weight is zero). -/
def nthClamp (s : List ℚ) (n : Nat) : ℚ :=
  s.getD (min n (s.length - 1)) 0

/-- The i/q-quantile of the sorted list `s` with linear interpolation, as
numpy computes it for pandas qcut: position h = (i/q)·(n−1), lower index
k = ⌊h⌋, remainder r/q = h − k, value s[k] + (r/q)·(s[k+1] − s[k]). -/
def quantileAt (s : List ℚ) (i q : Nat) : ℚ :=
  let m := s.length - 1
  let k := i * m / q
  let a := nthClamp s k
  let b := nthClamp s (k + 1)
  a + (((i * m % q : Nat) : ℚ) / (q : ℚ)) * (b - a)

/-- The q+1 quantile bin edges of pd.qcut: the (i/q)-quantiles, i = 0..q. -/
def qEdges (vals : List ℚ) (q : Nat) : List ℚ :=
  (List.range (q + 1)).map (fun i => quantileAt (sortedVals vals) i q)

/-- Bin assignment of pandas cut with right-closed bins and
`include_lowest`: searchsorted-left (the count of bin edges strictly below
x), with x equal to the lowest edge forced into the first bin, minus one. -/
def binOf (edges : List ℚ) (x : ℚ) : Nat :=
  let ids := edges.countP (fun e => decide (e < x))
  (if x = edges.headD 0 then 1 else ids) - 1

/-- pd.qcut(x, q, labels=range(q)) (plot.py line 108): quantile bin edges,
a ValueError when they are not unique (pandas raises
`Bin edges must be unique`), else each value's bin label. -/
def qcut (vals : List ℚ) (q : Nat) : Except PyErr (List Nat) :=
  let edges := qEdges vals q
  if edges.Nodup then Except.ok (vals.map (binOf edges)) else Except.error PyErr.valueError

/-- np.linspace(start, stop, num) with endpoint included (num = 1 yields
[start]; num = 0 yields the empty list). -/
def linspace (start stop : ℚ) (num : Nat) : List ℚ :=
  if num = 1 then [start]
  else (List.range num).map (fun i : Nat => start + (stop - start) * (i : ℚ) / ((num : ℚ) - 1))

/-- A sampled color: an opaque colormap code and the sampling position
(`cm.get_cmap(cmap)(x)` keeps no more information the pipeline reads). -/
structure Color where
  cmap : Nat
  pos : ℚ
  deriving DecidableEq, Repr

/-- Embedding of get_edge_colors_by_attr (plot.py lines 84-111): bin the
per-edge attribute values into `num_bins` quantiles, sample the colormap at
`num_bins` evenly spaced positions in [start, stop], and give each edge the
color of its bin (`color_list[cat]`; an out-of-range label would be a
Python IndexError). -/
def get_edge_colors_by_attr (G : Graph) (attr : EdgeData → ℚ) (num_bins : Nat)
    (cmap : Nat) (start stop : ℚ) : Except PyErr (List Color) :=
  match qcut (attr_values G attr) num_bins with
  | Except.error e => Except.error e
  | Except.ok cats =>
    let color_list := (linspace start stop num_bins).map (fun x => Color.mk cmap x)
    mapME (fun c =>
      match color_list[c]? with
      | some col => Except.ok col
      | none => Except.error PyErr.indexError) cats

/-- Test fixture: the spec's running example (spec section 8.7), a 4-node
loop with nodes at (0,0), (0,1), (1,1), (1,0) and one edge per side; the
edge lengths 1, 2, 3, 4 double as a numeric attribute distribution. -/
def exGraph : Graph :=
  { nodes := [(0, { x := 0, y := 0 }), (1, { x := 0, y := 1 }),
              (2, { x := 1, y := 1 }), (3, { x := 1, y := 0 })],
    edges := [{ u := 0, v := 1, key := 0, data := { length := 1 } },
              { u := 1, v := 2, key := 0, data := { length := 2 } },
              { u := 2, v := 3, key := 0, data := { length := 3 } },
              { u := 3, v := 0, key := 0, data := { length := 4 } }] }

/-- Test fixture: a configuration with an explicit bounding box
(north 1, south 0, east 1, west 0). -/
def exConfig : PlotConfig := { bbox := some (1, 0, 1, 0) }

/-- Test fixture: two parallel edges from node 0 to node 1, the first of
length 5, the second of length 3. -/
def parGraph : Graph :=
  { nodes := [(0, { x := 0, y := 0 }), (1, { x := 1, y := 1 })],
    edges := [{ u := 0, v := 1, key := 0, data := { length := 5 } },
              { u := 0, v := 1, key := 1, data := { length := 3 } }] }

/-- Test fixture: three edges whose attribute values are all equal (7). -/
def eqAttrGraph : Graph :=
  { nodes := [(0, { x := 0, y := 0 }), (1, { x := 1, y := 1 })],
    edges := [{ u := 0, v := 1, key := 0, data := { length := 7 } },
              { u := 1, v := 0, key := 0, data := { length := 7 } },
              { u := 0, v := 1, key := 1, data := { length := 7 } }] }

/-- Test fixture: the figure plot_graph composes for `exGraph` with
`exConfig`. -/
def exFig : Fig :=
  { fig_width := 6, fig_height := 6, bg := 0,
    edge_lines := [[(0, 0), (0, 1)], [(0, 1), (1, 1)], [(1, 1), (1, 0)], [(1, 0), (0, 0)]],
    edge_color := 2, edge_zorder := 2,
    node_xs := [0, 0, 1, 1], node_ys := [0, 1, 1, 0],
    node_color := 1, node_zorder := 1,
    ylim := (-1/50, 51/50), xlim := (-1/50, 51/50),
    axis_off := true, annots := [] }

/-- Test fixture: the rendering plot_graph_route composes for the route
[0, 1, 2] on `exGraph` with `exConfig` and the default route arguments. -/
def exRouteFig : RouteFig :=
  { base := exFig, od_lats := (0, 1), od_lons := (0, 1), od_size := 100,
    od_color := 3, od_zorder := 4,
    route_lines := [[(0, 0), (0, 1)], [(0, 1), (1, 1)]],
    route_color := 3, route_zorder := 3 }

deriving instance DecidableEq for Except

/-- A rendering step preserves the graph: whenever it succeeds, the graph
it returns is the graph it was given. -/
def Pres {α : Type} (m : GM α) : Prop :=
  ∀ G a G2, m.run G = Except.ok (a, G2) → G2 = G

theorem run_readPure {α : Type} (h : Graph → α) (G : Graph) :
    (readPure h).run G = Except.ok (h G, G) := rfl

theorem run_readE {α : Type} (h : Graph → Except PyErr α) (G : Graph) :
    (readE h).run G = (h G).map (fun a => (a, G)) := rfl

theorem readE_ok_iff {α : Type} (h : Graph → Except PyErr α) (G : Graph)
    (a : α) (G2 : Graph) :
    (readE h).run G = Except.ok (a, G2) ↔ h G = Except.ok a ∧ G2 = G := by
  rw [run_readE]
  cases hh : h G with
  | ok b =>
    simp [Except.map]
    exact fun _ => eq_comm
  | error e => simp [Except.map]

theorem bind_ok_iff {α β : Type} (m : GM α) (f : α → GM β) (G : Graph)
    (b : β) (G2 : Graph) :
    (m >>= f).run G = Except.ok (b, G2) ↔
      ∃ a G1, m.run G = Except.ok (a, G1) ∧ (f a).run G1 = Except.ok (b, G2) := by
  rw [StateT.run_bind]
  cases hm : m.run G with
  | ok p =>
    simp [Bind.bind, Except.bind]
    constructor
    · intro hf
      exact ⟨p.1, p.2, rfl, hf⟩
    · rintro ⟨a, G1, hp, hf⟩
      cases hp
      exact hf
  | error e => simp [Bind.bind, Except.bind]

theorem pres_pure {α : Type} (a : α) : Pres (pure a : GM α) := by
  intro G b G2 h
  rw [StateT.run_pure] at h
  cases h
  rfl

theorem pres_readPure {α : Type} (h : Graph → α) : Pres (readPure h) := by
  intro G a G2 hr
  rw [run_readPure] at hr
  cases hr
  rfl

theorem pres_readE {α : Type} (h : Graph → Except PyErr α) : Pres (readE h) := by
  intro G a G2 hr
  exact ((readE_ok_iff h G a G2).mp hr).2

theorem pres_bind {α β : Type} {m : GM α} {f : α → GM β}
    (hm : Pres m) (hf : ∀ a, Pres (f a)) : Pres (m >>= f) := by
  intro G b G2 hr
  obtain ⟨a, G1, h1, h2⟩ := (bind_ok_iff m f G b G2).mp hr
  have e1 := hm G a G1 h1
  rw [e1] at h2
  exact hf a G b G2 h2

theorem pres_mapMG {α β : Type} (g : α → GM β) (hg : ∀ x, Pres (g x))
    (l : List α) : Pres (mapMG g l) := by
  induction l with
  | nil => exact pres_pure []
  | cons x xs ih =>
    rw [mapMG]
    exact pres_bind (hg x) (fun y => pres_bind ih (fun ys => pres_pure (y :: ys)))

theorem pres_edge_lineM (use_geom : Bool) (u v : NodeId) (data : EdgeData) :
    Pres (edge_lineM use_geom u v data) := pres_readE _

theorem pres_pickRouteEdgeM (u v : NodeId) : Pres (pickRouteEdgeM u v) := pres_readE _

theorem pres_route_stepM (use_geom : Bool) (uv : NodeId × NodeId) :
    Pres (route_stepM use_geom uv) := by
  rw [route_stepM]
  exact pres_bind (pres_pickRouteEdgeM uv.1 uv.2)
    (fun data => pres_edge_lineM use_geom uv.1 uv.2 data)

theorem pres_plot_graphM (cfg : PlotConfig) : Pres (plot_graphM cfg) := by
  rw [plot_graphM]
  refine pres_bind (pres_readPure _) (fun nodeVals => ?_)
  refine pres_bind (pres_readE _) (fun nsew => ?_)
  refine pres_bind (pres_readPure _) (fun es => ?_)
  refine pres_bind (pres_mapMG _ (fun e => pres_edge_lineM cfg.use_geom e.u e.v e.data) es)
    (fun lines => ?_)
  by_cases hc : cfg.annotate = true
  · simp only [hc, if_true]
    exact pres_bind (pres_readPure _) (fun annots => pres_pure _)
  · simp only [hc, if_false]
    exact pres_bind (pres_pure _) (fun annots => pres_pure _)

theorem pres_plot_graph_routeM (cfg : PlotConfig) (rcfg : RouteConfig)
    (route : List NodeId) (op dp : Option (ℚ × ℚ)) :
    Pres (plot_graph_routeM cfg rcfg route op dp) := by
  rw [plot_graph_routeM]
  refine pres_bind (pres_plot_graphM cfg) (fun fig => ?_)
  cases route with
  | nil => exact pres_readE _
  | cons o rest =>
    refine pres_bind (pres_readE _) (fun odc => ?_)
    refine pres_bind (pres_mapMG _ (fun uv => pres_route_stepM cfg.use_geom uv) _)
      (fun rlines => pres_pure _)

theorem run_pure_ok_iff {α : Type} (a : α) (G : Graph) (b : α) (G2 : Graph) :
    (pure a : GM α).run G = Except.ok (b, G2) ↔ b = a ∧ G2 = G := by
  rw [StateT.run_pure]
  constructor
  · intro h
    injection h with h1
    exact ⟨(congrArg Prod.fst h1).symm, (congrArg Prod.snd h1).symm⟩
  · rintro ⟨rfl, rfl⟩
    rfl

theorem readPure_ok_iff {α : Type} (h : Graph → α) (G : Graph) (a : α) (G2 : Graph) :
    (readPure h).run G = Except.ok (a, G2) ↔ a = h G ∧ G2 = G := by
  rw [run_readPure]
  constructor
  · intro he
    injection he with h1
    exact ⟨(congrArg Prod.fst h1).symm, (congrArg Prod.snd h1).symm⟩
  · rintro ⟨rfl, rfl⟩
    rfl

theorem plot_graph_run_ok {cfg : PlotConfig} {G : Graph} {fig : Fig} {G2 : Graph}
    (h : (plot_graphM cfg).run G = Except.ok (fig, G2)) :
    G2 = G ∧ ∃ nsew lines annots,
      bbox_resolve cfg G = Except.ok nsew ∧
      (mapMG (fun (e : Edge) => edge_lineM cfg.use_geom e.u e.v e.data) G.edges).run G
        = Except.ok (lines, G) ∧
      fig = mkFig cfg ((G.nodes.map (fun p => p.2)).map (fun d => d.x))
        ((G.nodes.map (fun p => p.2)).map (fun d => d.y)) nsew lines annots := by
  have hG2 : G2 = G := pres_plot_graphM cfg G fig G2 h
  refine ⟨hG2, ?_⟩
  rw [plot_graphM] at h
  obtain ⟨nodeVals, Ga, h1, h⟩ := (bind_ok_iff _ _ _ _ _).mp h
  obtain ⟨hv, hGa⟩ := (readPure_ok_iff _ _ _ _).mp h1
  rw [hGa] at h
  obtain ⟨nsew, Gb, h2, h⟩ := (bind_ok_iff _ _ _ _ _).mp h
  obtain ⟨hb, hGb⟩ := (readE_ok_iff _ _ _ _).mp h2
  rw [hGb] at h
  obtain ⟨es, Gc, h3, h⟩ := (bind_ok_iff _ _ _ _ _).mp h
  obtain ⟨he, hGc⟩ := (readPure_ok_iff _ _ _ _).mp h3
  rw [hGc, he] at h
  obtain ⟨lines, Gd, h4, h⟩ := (bind_ok_iff _ _ _ _ _).mp h
  have hGd : Gd = G :=
    pres_mapMG (fun (e : Edge) => edge_lineM cfg.use_geom e.u e.v e.data)
      (fun e => pres_edge_lineM cfg.use_geom e.u e.v e.data) G.edges G lines Gd h4
  rw [hGd] at h4 h
  by_cases hc : cfg.annotate = true
  · simp only [hc, if_true] at h
    obtain ⟨annots, Ge, h5, h⟩ := (bind_ok_iff _ _ _ _ _).mp h
    obtain ⟨ha, hGe⟩ := (readPure_ok_iff _ _ _ _).mp h5
    rw [hGe] at h
    obtain ⟨hfig, _⟩ := (run_pure_ok_iff _ _ _ _).mp h
    refine ⟨nsew, lines, annots, hb, h4, ?_⟩
    rw [hfig, hv]
  · simp only [hc, if_false] at h
    obtain ⟨annots, Ge, h5, h⟩ := (bind_ok_iff _ _ _ _ _).mp h
    obtain ⟨ha, hGe⟩ := (run_pure_ok_iff _ _ _ _).mp h5
    rw [hGe] at h
    obtain ⟨hfig, _⟩ := (run_pure_ok_iff _ _ _ _).mp h
    refine ⟨nsew, lines, annots, hb, h4, ?_⟩
    rw [hfig, hv]

theorem plot_graph_route_run_ok {cfg : PlotConfig} {rcfg : RouteConfig}
    {route : List NodeId} {op dp : Option (ℚ × ℚ)} {G : Graph} {rfig : RouteFig}
    {G2 : Graph}
    (h : (plot_graph_routeM cfg rcfg route op dp).run G = Except.ok (rfig, G2)) :
    G2 = G ∧ ∃ o rest fig odc rlines,
      route = o :: rest ∧
      (plot_graphM cfg).run G = Except.ok (fig, G) ∧
      od_resolve rcfg o (List.getLastD rest o) op dp G = Except.ok odc ∧
      (mapMG (route_stepM cfg.use_geom) ((o :: rest).zip rest)).run G
        = Except.ok (rlines, G) ∧
      rfig = mkRouteFig rcfg fig odc rlines := by
  have hG2 : G2 = G := pres_plot_graph_routeM cfg rcfg route op dp G rfig G2 h
  refine ⟨hG2, ?_⟩
  rw [plot_graph_routeM] at h
  obtain ⟨fig, Ga, h1, h⟩ := (bind_ok_iff _ _ _ _ _).mp h
  have hGa : Ga = G := pres_plot_graphM cfg G fig Ga h1
  rw [hGa] at h1 h
  cases route with
  | nil =>
    rw [run_readE] at h
    simp [Except.map] at h
  | cons o rest =>
    obtain ⟨odc, Gb, h2, h⟩ := (bind_ok_iff _ _ _ _ _).mp h
    obtain ⟨hod, hGb⟩ := (readE_ok_iff _ _ _ _).mp h2
    rw [hGb] at h
    obtain ⟨rlines, Gc, h3, h⟩ := (bind_ok_iff _ _ _ _ _).mp h
    have hGc : Gc = G :=
      pres_mapMG (route_stepM cfg.use_geom)
        (fun uv => pres_route_stepM cfg.use_geom uv) ((o :: rest).zip rest) G rlines Gc h3
    rw [hGc] at h3 h
    obtain ⟨hfig, _⟩ := (run_pure_ok_iff _ _ _ _).mp h
    exact ⟨o, rest, fig, odc, rlines, rfl, h1, hod, h3, hfig⟩

theorem mapMG_run_ok_mem {α β : Type} (g : α → GM β) (hg : ∀ x, Pres (g x))
    (l : List α) (G : Graph) (out : List β) (G2 : Graph)
    (h : (mapMG g l).run G = Except.ok (out, G2)) :
    ∀ x ∈ l, ∃ y, (g x).run G = Except.ok (y, G) := by
  induction l generalizing out G2 with
  | nil =>
    intro x hx
    cases hx
  | cons a as ih =>
    rw [mapMG] at h
    obtain ⟨y, G1, h1, h⟩ := (bind_ok_iff _ _ _ _ _).mp h
    have hG1 : G1 = G := hg a G y G1 h1
    rw [hG1] at h1 h
    obtain ⟨ys, G3, h2, h⟩ := (bind_ok_iff _ _ _ _ _).mp h
    intro x hx
    rcases List.mem_cons.mp hx with rfl | hx'
    · exact ⟨y, h1⟩
    · exact ih ys G3 h2 x hx'

theorem mapME_ok_mem {α β : Type} (g : α → Except PyErr β) (l : List α)
    (out : List β) (h : mapME g l = Except.ok out) :
    ∀ x ∈ l, ∃ y, g x = Except.ok y := by
  induction l generalizing out with
  | nil =>
    intro x hx
    cases hx
  | cons a as ih =>
    rw [mapME] at h
    cases hga : g a with
    | error e =>
      rw [hga] at h
      cases hrest : mapME g as with
      | ok ys =>
        rw [hrest] at h
        cases h
      | error e2 =>
        rw [hrest] at h
        cases h
    | ok y =>
      rw [hga] at h
      cases hrest : mapME g as with
      | error e2 =>
        rw [hrest] at h
        cases h
      | ok ys =>
        rw [hrest] at h
        intro x hx
        rcases List.mem_cons.mp hx with rfl | hx'
        · exact ⟨y, hga⟩
        · exact ih ys hrest x hx'

theorem mapME_ok_length {α β : Type} (g : α → Except PyErr β) (l : List α)
    (out : List β) (h : mapME g l = Except.ok out) : out.length = l.length := by
  induction l generalizing out with
  | nil =>
    rw [mapME] at h
    cases h
    rfl
  | cons a as ih =>
    rw [mapME] at h
    cases hga : g a with
    | error e =>
      rw [hga] at h
      cases hrest : mapME g as with
      | ok ys =>
        rw [hrest] at h
        cases h
      | error e2 =>
        rw [hrest] at h
        cases h
    | ok y =>
      rw [hga] at h
      cases hrest : mapME g as with
      | error e2 =>
        rw [hrest] at h
        cases h
      | ok ys =>
        rw [hrest] at h
        injection h with h2
        subst h2
        simp [ih ys hrest]

theorem mapME_ok_of_forall {α β : Type} (g : α → Except PyErr β) (l : List α)
    (hall : ∀ x ∈ l, ∃ y, g x = Except.ok y) :
    ∃ out, mapME g l = Except.ok out ∧ out.length = l.length := by
  induction l with
  | nil => exact ⟨[], rfl, rfl⟩
  | cons a as ih =>
    obtain ⟨y, hy⟩ := hall a (List.mem_cons_self a as)
    obtain ⟨ys, hys, hlen⟩ := ih (fun x hx => hall x (List.mem_cons_of_mem a hx))
    refine ⟨y :: ys, ?_, by simp [hlen]⟩
    rw [mapME, hy, hys]

/-- Claim C3: for every bounding box (N, S, E, W) and margin fraction m,
the static rendering operations (plot_graph and plot_shape) set the view
limits to exactly (S − m·(N−S), N + m·(N−S)) on the y-axis and
(W − m·(E−W), E + m·(E−W)) on the x-axis, expanding symmetrically on both
sides. -/
theorem claim_c3_margin_view_limits (cfg : PlotConfig) (G : Graph)
    (n s e w : ℚ) (fig : Fig) (G2 : Graph)
    (hbb : cfg.bbox = some (n, s, e, w))
    (hrun : (plot_graphM cfg).run G = Except.ok (fig, G2)) :
    (fig.ylim = (s - cfg.margin * (n - s), n + cfg.margin * (n - s)) ∧
     fig.xlim = (w - cfg.margin * (e - w), e + cfg.margin * (e - w))) ∧
    plot_shape_limits (w, s, e, n) cfg.margin
      = ((s - cfg.margin * (n - s), n + cfg.margin * (n - s)),
         (w - cfg.margin * (e - w), e + cfg.margin * (e - w))) := by
  obtain ⟨hG2, nsew, lines, annots, hb, hlines, hfig⟩ := plot_graph_run_ok hrun
  rw [bbox_resolve, hbb] at hb
  injection hb with hb2
  rw [hfig, ← hb2]
  refine ⟨⟨?_, ?_⟩, ?_⟩
  · simp [mkFig, mul_comm]
  · simp [mkFig, mul_comm]
  · simp [plot_shape_limits, mul_comm]

theorem claim_c3_margin_view_limits_witness :
    ((exFig.ylim = (0 - exConfig.margin * (1 - 0), 1 + exConfig.margin * (1 - 0)) ∧
      exFig.xlim = (0 - exConfig.margin * (1 - 0), 1 + exConfig.margin * (1 - 0))) ∧
     plot_shape_limits (0, 0, 1, 1) exConfig.margin
       = ((0 - exConfig.margin * (1 - 0), 1 + exConfig.margin * (1 - 0)),
          (0 - exConfig.margin * (1 - 0), 1 + exConfig.margin * (1 - 0)))) :=
  claim_c3_margin_view_limits exConfig exGraph 1 0 1 0 exFig exGraph rfl
    (by with_unfolding_all rfl)

/-- Claim C4: for every bounding box with east ≠ west, when the caller does
not supply fig_width, plot_graph computes
fig_width = fig_height / ((north − south) / (east − west)); when the caller
supplies an explicit fig_width, that value is used unchanged. -/
theorem claim_c4_fig_width (cfg : PlotConfig) (G : Graph)
    (n s e w wd : ℚ) (fig : Fig) (G2 : Graph)
    (hbb : cfg.bbox = some (n, s, e, w))
    (hew : e ≠ w)
    (hrun : (plot_graphM cfg).run G = Except.ok (fig, G2)) :
    (cfg.fig_width = none → fig.fig_width = cfg.fig_height / ((n - s) / (e - w))) ∧
    (cfg.fig_width = some wd → fig.fig_width = wd) := by
  obtain ⟨hG2, nsew, lines, annots, hb, hlines, hfig⟩ := plot_graph_run_ok hrun
  rw [bbox_resolve, hbb] at hb
  injection hb with hb2
  rw [hfig, ← hb2]
  constructor
  · intro hnone
    simp [mkFig, hnone]
  · intro hsome
    simp [mkFig, hsome]

theorem claim_c4_fig_width_witness :
    (exConfig.fig_width = none → exFig.fig_width = exConfig.fig_height / ((1 - 0) / (1 - 0))) ∧
    (exConfig.fig_width = some 9 → exFig.fig_width = 9) :=
  claim_c4_fig_width exConfig exGraph 1 0 1 0 9 exFig exGraph rfl
    (by decide) (by with_unfolding_all rfl)

/-- Claim C6: in every composed route rendering, the layers carry exactly
these z-order values: edge lines z=2, nodes the caller-configurable
node_zorder defaulting to 1 (so nodes default beneath edges), the route
overlay z=3, and the origin/destination markers z=4. -/
theorem claim_c6_zorders (cfg : PlotConfig) (rcfg : RouteConfig)
    (route : List NodeId) (op dp : Option (ℚ × ℚ)) (G : Graph)
    (rfig : RouteFig) (G2 : Graph)
    (hrun : (plot_graph_routeM cfg rcfg route op dp).run G = Except.ok (rfig, G2)) :
    rfig.base.edge_zorder = 2 ∧ rfig.base.node_zorder = cfg.node_zorder ∧
    rfig.route_zorder = 3 ∧ rfig.od_zorder = 4 ∧
    defaultPlotConfig.node_zorder = 1 := by
  obtain ⟨hG2, o, rest, fig, odc, rlines, hroute, hplot, hod, hmap, hrfig⟩ :=
    plot_graph_route_run_ok hrun
  obtain ⟨hG, nsew, lines, annots, hb, hlines, hfig⟩ := plot_graph_run_ok hplot
  rw [hrfig, hfig]
  refine ⟨?_, ?_, ?_, ?_, ?_⟩ <;> rfl

theorem claim_c6_zorders_witness :
    exRouteFig.base.edge_zorder = 2 ∧ exRouteFig.base.node_zorder = exConfig.node_zorder ∧
    exRouteFig.route_zorder = 3 ∧ exRouteFig.od_zorder = 4 ∧
    defaultPlotConfig.node_zorder = 1 :=
  claim_c6_zorders exConfig defaultRouteConfig [0, 1, 2] none none exGraph
    exRouteFig exGraph (by with_unfolding_all rfl)

/-- Claim C9: for every input graph, plot_graph only reads the graph during
rendering and never mutates it: the graph (its node set, edge set, and all
node and edge attributes) is identical before and after the call. -/
theorem claim_c9_plot_graph_readonly (cfg : PlotConfig) (G : Graph) (fig : Fig)
    (G2 : Graph) (hrun : (plot_graphM cfg).run G = Except.ok (fig, G2)) :
    G2 = G ∧ G2.nodes = G.nodes ∧ G2.edges = G.edges := by
  have h := pres_plot_graphM cfg G fig G2 hrun
  exact ⟨h, by rw [h], by rw [h]⟩

theorem claim_c9_plot_graph_readonly_witness :
    exGraph = exGraph ∧ exGraph.nodes = exGraph.nodes ∧ exGraph.edges = exGraph.edges :=
  claim_c9_plot_graph_readonly exConfig exGraph exFig exGraph
    (by with_unfolding_all rfl)

/-- Claim C10: when exactly one of origin_point and destination_point is
provided to plot_graph_route (the other being None), the provided override
point is ignored entirely: both origin and destination markers are placed
at the route's first and last node coordinates and drawn with the node
marker color (orig_dest_node_color), not the override-point color. -/
theorem claim_c10_single_override_ignored (cfg : PlotConfig) (rcfg : RouteConfig)
    (o : NodeId) (rest : List NodeId) (p : ℚ × ℚ) (G : Graph)
    (rfig rfig2 : RouteFig) (G2 G3 : Graph) (dO dD : NodeData)
    (ho : G.getNode o = some dO)
    (hd : G.getNode (List.getLastD rest o) = some dD)
    (h1 : (plot_graph_routeM cfg rcfg (o :: rest) (some p) none).run G
      = Except.ok (rfig, G2))
    (h2 : (plot_graph_routeM cfg rcfg (o :: rest) none (some p)).run G
      = Except.ok (rfig2, G3)) :
    (rfig.od_lats = (dO.y, dD.y) ∧ rfig.od_lons = (dO.x, dD.x) ∧
     rfig.od_color = rcfg.orig_dest_node_color) ∧
    (rfig2.od_lats = (dO.y, dD.y) ∧ rfig2.od_lons = (dO.x, dD.x) ∧
     rfig2.od_color = rcfg.orig_dest_node_color) := by
  obtain ⟨hG2, o1, rest1, fig, odc, rlines, hroute, hplot, hod, hmap, hrfig⟩ :=
    plot_graph_route_run_ok h1
  obtain ⟨ho1, hrest1⟩ : o1 = o ∧ rest1 = rest := by
    injection hroute with a b
    exact ⟨a.symm, b.symm⟩
  rw [ho1, hrest1] at hod
  simp only [od_resolve, ho, hd] at hod
  injection hod with hodc
  obtain ⟨hG3, o2, rest2, fig2, odc2, rlines2, hroute2, hplot2, hod2, hmap2, hrfig2⟩ :=
    plot_graph_route_run_ok h2
  obtain ⟨ho2, hrest2⟩ : o2 = o ∧ rest2 = rest := by
    injection hroute2 with a b
    exact ⟨a.symm, b.symm⟩
  rw [ho2, hrest2] at hod2
  simp only [od_resolve, ho, hd] at hod2
  injection hod2 with hodc2
  rw [hrfig, ← hodc, hrfig2, ← hodc2]
  exact ⟨⟨rfl, rfl, rfl⟩, ⟨rfl, rfl, rfl⟩⟩

theorem claim_c10_single_override_ignored_witness :
    (exRouteFig.od_lats = (0, 1) ∧ exRouteFig.od_lons = (0, 1) ∧
     exRouteFig.od_color = defaultRouteConfig.orig_dest_node_color) ∧
    (exRouteFig.od_lats = (0, 1) ∧ exRouteFig.od_lons = (0, 1) ∧
     exRouteFig.od_color = defaultRouteConfig.orig_dest_node_color) := by
  have h := claim_c10_single_override_ignored exConfig defaultRouteConfig
    0 [1, 2] (5, 5) exGraph exRouteFig exRouteFig exGraph exGraph
    { x := 0, y := 0 } { x := 1, y := 1 }
    (by decide) (by decide)
    (by with_unfolding_all rfl) (by with_unfolding_all rfl)
  exact h

/-- Claim C5: for every graph edge being drawn, the resolved polyline is
the edge's stored `geometry` coordinate sequence verbatim when that
attribute is present and use_geom is true, and otherwise is exactly the
two-point sequence [source node coordinates, target node coordinates]. -/
theorem claim_c5_edge_polyline (G : Graph) (use_geom : Bool) (u v : NodeId)
    (data : EdgeData) (g : List (ℚ × ℚ)) (du dv : NodeData)
    (hu : G.getNode u = some du) (hv : G.getNode v = some dv) :
    (data.geometry = some g → use_geom = true →
      edge_line G use_geom u v data = Except.ok g) ∧
    ((data.geometry = none ∨ use_geom = false) →
      edge_line G use_geom u v data = Except.ok [(du.x, du.y), (dv.x, dv.y)]) := by
  constructor
  · intro hg hug
    simp [edge_line, hg, hug]
  · intro hcase
    rcases hcase with hg | hug
    · simp [edge_line, hg, straight_line, hu, hv]
    · cases hgeo : data.geometry with
      | some gg => simp [edge_line, hgeo, hug, straight_line, hu, hv]
      | none => simp [edge_line, hgeo, straight_line, hu, hv]

theorem claim_c5_edge_polyline_witness :
    (({ length := 1, geometry := some [(0, 0), (1/2, 2), (0, 1)] } : EdgeData).geometry
        = some [(0, 0), (1/2, 2), (0, 1)] → true = true →
      edge_line exGraph true 0 1 { length := 1, geometry := some [(0, 0), (1/2, 2), (0, 1)] }
        = Except.ok [(0, 0), (1/2, 2), (0, 1)]) ∧
    ((({ length := 1, geometry := some [(0, 0), (1/2, 2), (0, 1)] } : EdgeData).geometry = none ∨
       true = false) →
      edge_line exGraph true 0 1 { length := 1, geometry := some [(0, 0), (1/2, 2), (0, 1)] }
        = Except.ok [(0, 0), (0, 1)]) := by
  have h := claim_c5_edge_polyline exGraph true 0 1
    { length := 1, geometry := some [(0, 0), (1/2, 2), (0, 1)] }
    [(0, 0), (1/2, 2), (0, 1)] { x := 0, y := 0 } { x := 0, y := 1 }
    (by decide) (by decide)
  exact h

/-- Claim C8: for every edge, the street-width classification in
plot_figure_ground uses the first element of the `highway` attribute when
that attribute is a list (otherwise the attribute value itself), returns
exactly the mapped width when that street type is a key of the
street_widths mapping, and exactly the caller-supplied default_width when
it is absent. -/
theorem claim_c8_street_width (sw : List (Nat × ℚ)) (dw : ℚ) (t : Nat)
    (rest : List Nat) (pr : Nat × ℚ) :
    (street_width_of sw dw (HighwayAttr.list (t :: rest))
      = street_width_of sw dw (HighwayAttr.scalar t)) ∧
    (sw.find? (fun p => p.1 == t) = some pr →
      street_width_of sw dw (HighwayAttr.scalar t) = Except.ok pr.2) ∧
    (sw.find? (fun p => p.1 == t) = none →
      street_width_of sw dw (HighwayAttr.scalar t) = Except.ok dw) := by
  refine ⟨rfl, ?_, ?_⟩
  · intro hfind
    simp [street_width_of, street_type_of, hfind]
  · intro hfind
    simp [street_width_of, street_type_of, hfind]

theorem claim_c8_street_width_witness :
    (street_width_of [(7, 3/2), (9, 6)] 4 (HighwayAttr.list [7, 9])
      = street_width_of [(7, 3/2), (9, 6)] 4 (HighwayAttr.scalar 7)) ∧
    (([(7, 3/2), (9, 6)] : List (Nat × ℚ)).find? (fun p => p.1 == 7) = some (7, 3/2) →
      street_width_of [(7, 3/2), (9, 6)] 4 (HighwayAttr.scalar 7) = Except.ok (7, (3:ℚ)/2).2) ∧
    (([(7, 3/2), (9, 6)] : List (Nat × ℚ)).find? (fun p => p.1 == 7) = none →
      street_width_of [(7, 3/2), (9, 6)] 4 (HighwayAttr.scalar 7) = Except.ok 4) :=
  claim_c8_street_width [(7, 3/2), (9, 6)] 4 7 [9] (7, 3/2)

/-- Claim C7: for every route containing a consecutive node pair (u, v)
with no corresponding edge in the graph, route rendering (plot_graph_route
and plot_route_folium) fails with a lookup error that propagates to the
caller; the missing edge is not silently handled and no substitute edge is
drawn. -/
theorem claim_c7_missing_edge_fails (G : Graph) (route : List NodeId)
    (u v : NodeId) (cfg : PlotConfig) (rcfg : RouteConfig)
    (op dp : Option (ℚ × ℚ))
    (hmem : (u, v) ∈ route.zip route.tail)
    (hnone : G.edgesBetween u v = []) :
    isOkB ((plot_graph_routeM cfg rcfg route op dp).run G) = false ∧
    isOkB (plot_route_folium_edges G route) = false := by
  constructor
  · cases hres : (plot_graph_routeM cfg rcfg route op dp).run G with
    | error e => rfl
    | ok out =>
      exfalso
      obtain ⟨rfig1, G4⟩ := out
      obtain ⟨hG2, o, rest, fig, odc, rlines, hroute, hplot, hod, hmap, hrfig⟩ :=
        plot_graph_route_run_ok hres
      have hmem2 : (u, v) ∈ (o :: rest).zip rest := by
        rw [hroute] at hmem
        simpa using hmem
      have hall := mapMG_run_ok_mem (route_stepM cfg.use_geom)
        (fun uv => pres_route_stepM cfg.use_geom uv) ((o :: rest).zip rest) G rlines G hmap
      obtain ⟨y, hy⟩ := hall (u, v) hmem2
      rw [route_stepM] at hy
      obtain ⟨dta, G1, hpick, _⟩ := (bind_ok_iff _ _ _ _ _).mp hy
      obtain ⟨hpick2, _⟩ := (readE_ok_iff _ _ _ _).mp hpick
      rw [pickRouteEdge, hnone] at hpick2
      cases hpick2
  · cases hres2 : plot_route_folium_edges G route with
    | error e => rfl
    | ok out2 =>
      exfalso
      have hall := mapME_ok_mem _ _ _ hres2
      obtain ⟨y, hy⟩ := hall (u, v) hmem
      have hfil : (gdf_edges G).filter (fun e => e.u == u && e.v == v) = [] := by
        rw [Graph.edgesBetween] at hnone
        exact List.map_eq_nil_iff.mp hnone
      rw [folium_route_edge, hfil] at hy
      cases hy

theorem claim_c7_missing_edge_fails_witness :
    isOkB ((plot_graph_routeM exConfig defaultRouteConfig [0, 3] none none).run exGraph)
      = false ∧
    isOkB (plot_route_folium_edges exGraph [0, 3]) = false :=
  claim_c7_missing_edge_fails exGraph [0, 3] 0 3 exConfig defaultRouteConfig
    none none (by decide) (by decide)

theorem pyMin_mem (acc : EdgeData) (l : List EdgeData) :
    pyMinByLength acc l = acc ∨ pyMinByLength acc l ∈ l := by
  induction l generalizing acc with
  | nil => exact Or.inl rfl
  | cons x xs ih =>
    rw [pyMinByLength]
    by_cases hx : x.length < acc.length
    · simp only [hx, if_true]
      rcases ih x with h | h
      · rw [h]
        exact Or.inr (List.mem_cons_self x xs)
      · exact Or.inr (List.mem_cons_of_mem x h)
    · simp only [hx, if_false]
      rcases ih acc with h | h
      · exact Or.inl h
      · exact Or.inr (List.mem_cons_of_mem x h)

theorem pyMin_le_acc (acc : EdgeData) (l : List EdgeData) :
    (pyMinByLength acc l).length ≤ acc.length := by
  induction l generalizing acc with
  | nil => exact le_refl _
  | cons x xs ih =>
    rw [pyMinByLength]
    by_cases hx : x.length < acc.length
    · simp only [hx, if_true]
      exact le_trans (ih x) (le_of_lt hx)
    · simp only [hx, if_false]
      exact ih acc

theorem pyMin_le_all (acc : EdgeData) (l : List EdgeData) :
    ∀ x ∈ l, (pyMinByLength acc l).length ≤ x.length := by
  induction l generalizing acc with
  | nil =>
    intro x hx
    cases hx
  | cons x xs ih =>
    intro y hy
    rw [pyMinByLength]
    rcases List.mem_cons.mp hy with rfl | hy'
    · by_cases hx : y.length < acc.length
      · simp only [hx, if_true]
        exact pyMin_le_acc y xs
      · simp only [hx, if_false]
        exact le_trans (pyMin_le_acc acc xs) (le_of_not_lt hx)
    · by_cases hx : x.length < acc.length
      · simp only [hx, if_true]
        exact ih x y hy'
      · simp only [hx, if_false]
        exact ih acc y hy'

theorem pyMin_first (acc : EdgeData) (l : List EdgeData) :
    ∃ i, (acc :: l)[i]? = some (pyMinByLength acc l) ∧
      ∀ x ∈ (acc :: l).take i, (pyMinByLength acc l).length < x.length := by
  induction l generalizing acc with
  | nil => exact ⟨0, rfl, by intro x hx; cases hx⟩
  | cons x xs ih =>
    rw [pyMinByLength]
    by_cases hx : x.length < acc.length
    · simp only [hx, if_true]
      obtain ⟨j, hj, hjall⟩ := ih x
      refine ⟨j + 1, by simpa using hj, ?_⟩
      intro y hy
      rw [List.take_succ_cons] at hy
      rcases List.mem_cons.mp hy with rfl | hy'
      · exact lt_of_le_of_lt (pyMin_le_acc x xs) hx
      · exact hjall y hy'
    · simp only [hx, if_false]
      obtain ⟨j, hj, hjall⟩ := ih acc
      cases j with
      | zero =>
        refine ⟨0, ?_, by intro y hy; cases hy⟩
        simpa using hj
      | succ k =>
        refine ⟨k + 2, by simpa using hj, ?_⟩
        intro y hy
        rw [List.take_succ_cons, List.take_succ_cons] at hy
        have hacc : (pyMinByLength acc xs).length < acc.length := by
          apply hjall
          rw [List.take_succ_cons]
          exact List.mem_cons_self acc _
        rcases List.mem_cons.mp hy with rfl | hy2
        · exact hacc
        · rcases List.mem_cons.mp hy2 with rfl | hy3
          · exact lt_of_lt_of_le hacc (le_of_not_lt hx)
          · apply hjall
            rw [List.take_succ_cons]
            exact List.mem_cons_of_mem acc hy3

/-- Claim C1, amended: plot_graph_route selects, for each route step with
parallel edges, the edge whose `length` is minimal (deterministically the
first encountered on ties); plot_route_folium instead selects the first
parallel edge in edge-table order regardless of `length`. -/
theorem claim_c1_route_edge_selection (G : Graph) (u v : NodeId)
    (d : EdgeData) (ds : List EdgeData)
    (hpar : G.edgesBetween u v = d :: ds) :
    (pickRouteEdge G u v = Except.ok (pyMinByLength d ds) ∧
     pyMinByLength d ds ∈ d :: ds ∧
     (∀ x ∈ d :: ds, (pyMinByLength d ds).length ≤ x.length) ∧
     (∃ i, (d :: ds)[i]? = some (pyMinByLength d ds) ∧
       ∀ x ∈ (d :: ds).take i, (pyMinByLength d ds).length < x.length)) ∧
    (∀ e es, (gdf_edges G).filter (fun ed => ed.u == u && ed.v == v) = e :: es →
      folium_route_edge G u v = Except.ok e) := by
  constructor
  · refine ⟨?_, ?_, ?_, ?_⟩
    · rw [pickRouteEdge, hpar]
    · rcases pyMin_mem d ds with h | h
      · rw [h]
        exact List.mem_cons_self d ds
      · exact List.mem_cons_of_mem d h
    · intro x hx
      rcases List.mem_cons.mp hx with hxd | hx'
      · rw [hxd]
        exact pyMin_le_acc d ds
      · exact pyMin_le_all d ds x hx'
    · exact pyMin_first d ds
  · intro e es hfil
    rw [folium_route_edge, hfil]

theorem claim_c1_route_edge_selection_witness :
    ((pickRouteEdge parGraph 0 1
        = Except.ok (pyMinByLength { length := 5 } [{ length := 3 }]) ∧
      pyMinByLength { length := 5 } [{ length := 3 }]
        ∈ [{ length := 5 }, ({ length := 3 } : EdgeData)] ∧
      (∀ x ∈ [{ length := 5 }, ({ length := 3 } : EdgeData)],
        (pyMinByLength { length := 5 } [{ length := 3 }]).length ≤ x.length) ∧
      (∃ i, [{ length := 5 }, ({ length := 3 } : EdgeData)][i]?
          = some (pyMinByLength { length := 5 } [{ length := 3 }]) ∧
        ∀ x ∈ ([{ length := 5 }, ({ length := 3 } : EdgeData)]).take i,
          (pyMinByLength { length := 5 } [{ length := 3 }]).length < x.length)) ∧
     (∀ e es, (gdf_edges parGraph).filter (fun ed => ed.u == 0 && ed.v == 1) = e :: es →
       folium_route_edge parGraph 0 1 = Except.ok e)) :=
  claim_c1_route_edge_selection parGraph 0 1 { length := 5 } [{ length := 3 }] (by decide)

/-- Claim C1 counterexample: on two parallel edges (0, 1) of lengths 5 and
3 (in that table order), plot_route_folium's row selection returns the
first row, of length 5, although the minimal parallel-edge length is 3 (the
edge plot_graph_route selects). -/
theorem claim_c1_counterexample :
    (folium_route_edge parGraph 0 1).map (fun e => e.data.length) = Except.ok 5 ∧
    (parGraph.edgesBetween 0 1).map EdgeData.length = [5, 3] ∧
    (pickRouteEdge parGraph 0 1).map EdgeData.length = Except.ok 3 ∧ (5 : ℚ) ≠ 3 := by
  refine ⟨rfl, rfl, rfl, by decide⟩

theorem sortedVals_sorted (l : List ℚ) : (sortedVals l).Sorted (fun a b => a ≤ b) :=
  List.sorted_insertionSort _ l

theorem sortedVals_perm (l : List ℚ) : List.Perm (sortedVals l) l :=
  List.perm_insertionSort _ l

theorem mem_sortedVals {l : List ℚ} {x : ℚ} : x ∈ sortedVals l ↔ x ∈ l :=
  (sortedVals_perm l).mem_iff

theorem sortedVals_length (l : List ℚ) : (sortedVals l).length = l.length :=
  (sortedVals_perm l).length_eq

theorem sortedVals_ne_nil {l : List ℚ} (h : l ≠ []) : sortedVals l ≠ [] := by
  intro hc
  apply h
  have hl := sortedVals_length l
  rw [hc] at hl
  exact List.length_eq_zero.mp hl.symm

theorem orderedInsert_map_strictMono (f : ℚ → ℚ) (hf : StrictMono f) (x : ℚ) :
    ∀ s : List ℚ, List.orderedInsert (fun a b => a ≤ b) (f x) (s.map f)
      = (List.orderedInsert (fun a b => a ≤ b) x s).map f
  | [] => rfl
  | y :: ys => by
    simp only [List.map_cons, List.orderedInsert]
    by_cases h : x ≤ y
    · rw [if_pos (hf.le_iff_le.mpr h), if_pos h]
      rfl
    · rw [if_neg (fun hc => h (hf.le_iff_le.mp hc)), if_neg h, List.map_cons,
        orderedInsert_map_strictMono f hf x ys]

theorem sortedVals_map_strictMono (f : ℚ → ℚ) (hf : StrictMono f) :
    ∀ l : List ℚ, sortedVals (l.map f) = (sortedVals l).map f
  | [] => rfl
  | x :: xs => by
    rw [List.map_cons, sortedVals, List.insertionSort]
    have ih : List.insertionSort (fun a b => a ≤ b) (xs.map f) = (sortedVals xs).map f :=
      sortedVals_map_strictMono f hf xs
    rw [ih, orderedInsert_map_strictMono f hf x (sortedVals xs)]
    rfl

theorem getD_le_getD {s : List ℚ} (hs : s.Sorted (fun a b => a ≤ b))
    {i j : Nat} (hi : i < s.length) (hj : j < s.length) (hij : i ≤ j) :
    s.getD i 0 ≤ s.getD j 0 := by
  rcases Nat.lt_or_ge i j with hlt | hge
  · rw [List.getD_eq_getElem _ _ hi, List.getD_eq_getElem _ _ hj]
    exact List.pairwise_iff_getElem.mp hs _ _ hi hj hlt
  · have heq : i = j := le_antisymm hij hge
    rw [heq]

theorem nthClamp_map {s : List ℚ} (hs : s ≠ []) (f : ℚ → ℚ) (n : Nat) :
    nthClamp (s.map f) n = f (nthClamp s n) := by
  rw [nthClamp, nthClamp, List.length_map]
  have hlen : 0 < s.length := List.length_pos.mpr hs
  have hidx : min n (s.length - 1) < s.length :=
    lt_of_le_of_lt (min_le_right _ _) (Nat.sub_lt hlen Nat.one_pos)
  rw [List.getD_eq_getElem _ _ (by rw [List.length_map]; exact hidx),
    List.getD_eq_getElem _ _ hidx, List.getElem_map]

theorem nthClamp_mono {s : List ℚ} (hs : s.Sorted (fun a b => a ≤ b))
    {i j : Nat} (hij : i ≤ j) : nthClamp s i ≤ nthClamp s j := by
  cases hnil : s with
  | nil => simp [nthClamp]
  | cons a l =>
    rw [← hnil]
    have hlen : 0 < s.length := by rw [hnil]; exact Nat.succ_pos _
    have hi : min i (s.length - 1) < s.length :=
      lt_of_le_of_lt (min_le_right _ _) (Nat.sub_lt hlen Nat.one_pos)
    have hj : min j (s.length - 1) < s.length :=
      lt_of_le_of_lt (min_le_right _ _) (Nat.sub_lt hlen Nat.one_pos)
    exact getD_le_getD hs hi hj (min_le_min hij (le_refl _))

theorem mem_getD (s : List ℚ) {x : ℚ} (hx : x ∈ s) :
    ∃ t, t < s.length ∧ s.getD t 0 = x := by
  obtain ⟨t, ht, hxt⟩ := List.mem_iff_getElem.mp hx
  exact ⟨t, ht, by rw [List.getD_eq_getElem _ _ ht, hxt]⟩

theorem mem_le_nthClamp_last {s : List ℚ} (hs : s.Sorted (fun a b => a ≤ b))
    {x : ℚ} (hx : x ∈ s) : x ≤ nthClamp s (s.length - 1) := by
  obtain ⟨t, ht, hxt⟩ := mem_getD s hx
  have hlen : 0 < s.length := List.length_pos.mpr (List.ne_nil_of_mem hx)
  have hidx : min (s.length - 1) (s.length - 1) < s.length := by
    rw [min_self]
    exact Nat.sub_lt hlen Nat.one_pos
  rw [nthClamp, ← hxt]
  refine getD_le_getD hs ht hidx ?_
  rw [min_self]
  exact Nat.le_sub_one_of_lt ht

theorem mem_lt_nthClamp_succ {s : List ℚ} (hs : s.Sorted (fun a b => a ≤ b))
    {x : ℚ} (hx : x ∈ s) {k : Nat} (hlt : x < nthClamp s (k + 1)) :
    x ≤ nthClamp s k := by
  obtain ⟨t, ht, hxt⟩ := mem_getD s hx
  have hlen : 0 < s.length := List.length_pos.mpr (List.ne_nil_of_mem hx)
  have hik : min k (s.length - 1) < s.length :=
    lt_of_le_of_lt (min_le_right _ _) (Nat.sub_lt hlen Nat.one_pos)
  have hik1 : min (k + 1) (s.length - 1) < s.length :=
    lt_of_le_of_lt (min_le_right _ _) (Nat.sub_lt hlen Nat.one_pos)
  rw [nthClamp, ← hxt]
  by_cases htk : t ≤ min k (s.length - 1)
  · exact getD_le_getD hs ht hik htk
  · exfalso
    push_neg at htk
    have hge : min (k + 1) (s.length - 1) ≤ t := by
      rcases Nat.lt_or_ge k (s.length - 1) with h2 | h2
      · have hk : min k (s.length - 1) = k := min_eq_left (Nat.le_of_lt h2)
        rw [hk] at htk
        exact le_trans (min_le_left _ _) htk
      · have hk : min k (s.length - 1) = s.length - 1 := min_eq_right h2
        rw [hk] at htk
        exact le_trans (min_le_right _ _) (Nat.le_of_lt htk)
    have hbig : nthClamp s (k + 1) ≤ x := by
      rw [nthClamp, ← hxt]
      exact getD_le_getD hs hik1 ht hge
    exact absurd hlt (not_lt.mpr hbig)

theorem quantileAt_zero (s : List ℚ) (q : Nat) : quantileAt s 0 q = nthClamp s 0 := by
  simp [quantileAt]

theorem quantileAt_top (s : List ℚ) {q : Nat} (hq : 1 ≤ q) :
    quantileAt s q q = nthClamp s (s.length - 1) := by
  rw [quantileAt]
  have h1 : q * (s.length - 1) / q = s.length - 1 :=
    Nat.mul_div_cancel_left _ (by omega)
  have h2 : q * (s.length - 1) % q = 0 := Nat.mul_mod_right q _
  rw [h1, h2]
  norm_num

theorem interp_ge_left {a b t : ℚ} (hab : a ≤ b) (h0 : 0 ≤ t) :
    a ≤ a + t * (b - a) := by nlinarith

theorem interp_le_right {a b t : ℚ} (hab : a ≤ b) (h0 : 0 ≤ t) (h1 : t ≤ 1) :
    a + t * (b - a) ≤ b := by nlinarith

theorem quantileAt_lt_iff {s : List ℚ} (hs : s.Sorted (fun a b => a ≤ b))
    {q : Nat} (hq : 1 ≤ q) (i : Nat) {x : ℚ} (hx : x ∈ s) :
    quantileAt s i q < x ↔
      (nthClamp s (i * (s.length - 1) / q) < x ∧
       (i * (s.length - 1) % q = 0 ∨ nthClamp s (i * (s.length - 1) / q + 1) ≤ x)) := by
  rw [quantileAt]
  have hab : nthClamp s (i * (s.length - 1) / q)
      ≤ nthClamp s (i * (s.length - 1) / q + 1) := nthClamp_mono hs (Nat.le_succ _)
  have hrq : i * (s.length - 1) % q < q := Nat.mod_lt _ (by omega)
  have hqpos : (0:ℚ) < (q:ℚ) := by exact_mod_cast Nat.lt_of_lt_of_le Nat.zero_lt_one hq
  have ht0 : (0:ℚ) ≤ ((i * (s.length - 1) % q : Nat) : ℚ) / (q : ℚ) := by positivity
  have ht1 : ((i * (s.length - 1) % q : Nat) : ℚ) / (q : ℚ) < 1 := by
    rw [div_lt_one hqpos]
    exact_mod_cast hrq
  constructor
  · intro hlt
    have hax : nthClamp s (i * (s.length - 1) / q) < x :=
      lt_of_le_of_lt (interp_ge_left hab ht0) hlt
    refine ⟨hax, ?_⟩
    by_contra hcon
    push_neg at hcon
    obtain ⟨hr0, hbx⟩ := hcon
    have hxa : x ≤ nthClamp s (i * (s.length - 1) / q) :=
      mem_lt_nthClamp_succ hs hx hbx
    exact absurd hax (not_lt.mpr hxa)
  · rintro ⟨hax, hr0 | hbx⟩
    · rw [hr0]
      norm_num
      exact hax
    · have h1 : nthClamp s (i * (s.length - 1) / q)
          + ((i * (s.length - 1) % q : Nat) : ℚ) / (q : ℚ)
            * (nthClamp s (i * (s.length - 1) / q + 1)
              - nthClamp s (i * (s.length - 1) / q))
          ≤ nthClamp s (i * (s.length - 1) / q)
          + ((i * (s.length - 1) % q : Nat) : ℚ) / (q : ℚ)
            * (x - nthClamp s (i * (s.length - 1) / q)) := by nlinarith
      have h2 : nthClamp s (i * (s.length - 1) / q)
          + ((i * (s.length - 1) % q : Nat) : ℚ) / (q : ℚ)
            * (x - nthClamp s (i * (s.length - 1) / q)) < x := by nlinarith
      exact lt_of_le_of_lt h1 h2

theorem interp_eq_interp_same_iff {a b t1 t2 : ℚ} (hab : a ≤ b) (ht : t1 < t2) :
    (a + t1 * (b - a) = a + t2 * (b - a) ↔ a = b) := by
  constructor
  · intro he
    have hz : (t2 - t1) * (b - a) = 0 := by linarith
    rcases mul_eq_zero.mp hz with h1 | h2
    · exfalso
      linarith
    · linarith
  · intro heq
    rw [heq]
    ring

theorem interp_eq_interp_iff {a1 b1 a2 b2 t1 t2 : ℚ}
    (h1 : a1 ≤ b1) (h2 : a2 ≤ b2) (hbia : b1 ≤ a2)
    (ht10 : 0 ≤ t1) (ht11 : t1 < 1) (ht20 : 0 ≤ t2) :
    (a1 + t1 * (b1 - a1) = a2 + t2 * (b2 - a2) ↔
      (a1 = b1 ∧ b1 = a2 ∧ (t2 = 0 ∨ a2 = b2))) := by
  constructor
  · intro he
    have e1b : a1 + t1 * (b1 - a1) ≤ b1 := interp_le_right h1 ht10 (le_of_lt ht11)
    have a2e : a2 ≤ a2 + t2 * (b2 - a2) := interp_ge_left h2 ht20
    have hc1 : a1 + t1 * (b1 - a1) = b1 := by
      refine le_antisymm e1b ?_
      rw [he]
      exact le_trans hbia a2e
    have hc2 : b1 = a2 := by
      refine le_antisymm hbia ?_
      calc a2 ≤ a2 + t2 * (b2 - a2) := a2e
        _ = a1 + t1 * (b1 - a1) := he.symm
        _ ≤ b1 := e1b
    have hc3 : t2 * (b2 - a2) = 0 := by
      have ha2e2 : a2 + t2 * (b2 - a2) ≤ a2 := by
        calc a2 + t2 * (b2 - a2) = a1 + t1 * (b1 - a1) := he.symm
          _ ≤ b1 := e1b
          _ ≤ a2 := hbia
      linarith
    have hab1 : a1 = b1 := by
      have hz : (1 - t1) * (b1 - a1) = 0 := by linarith
      rcases mul_eq_zero.mp hz with hz1 | hz2
      · exfalso
        linarith
      · linarith
    refine ⟨hab1, hc2, ?_⟩
    rcases mul_eq_zero.mp hc3 with hz1 | hz2
    · exact Or.inl hz1
    · exact Or.inr (by linarith)
  · rintro ⟨hab1, hb1a2, hcase⟩
    have ha12 : a1 = a2 := hab1.trans hb1a2
    rcases hcase with ht2 | hab2
    · rw [ht2, ← hab1, ha12]
      ring
    · rw [← hab1, ← hab2, ha12]
      ring

theorem cast_div_eq_zero_iff {r q : Nat} (hq : 1 ≤ q) :
    ((r : ℚ) / (q : ℚ) = 0) ↔ r = 0 := by
  rw [div_eq_zero_iff]
  constructor
  · rintro (h | h)
    · exact_mod_cast h
    · exfalso
      have : (q:ℚ) ≠ 0 := by
        have : (0:ℚ) < (q:ℚ) := by exact_mod_cast Nat.lt_of_lt_of_le Nat.zero_lt_one hq
        exact ne_of_gt this
      exact this h
  · intro h
    exact Or.inl (by exact_mod_cast h)

theorem nthClamp_const {s : List ℚ} (hm0 : s.length - 1 = 0) (n : Nat) :
    nthClamp s n = nthClamp s 0 := by
  rw [nthClamp, nthClamp, hm0]
  simp

theorem quantileAt_eq_iff {s : List ℚ} (hs : s.Sorted (fun a b => a ≤ b))
    {q : Nat} (hq : 1 ≤ q) {i j : Nat} (hij : i < j) :
    quantileAt s i q = quantileAt s j q ↔
      (nthClamp s (i * (s.length - 1) / q) = nthClamp s (i * (s.length - 1) / q + 1) ∧
       nthClamp s (i * (s.length - 1) / q + 1) = nthClamp s (j * (s.length - 1) / q) ∧
       (j * (s.length - 1) % q = 0 ∨
        nthClamp s (j * (s.length - 1) / q) = nthClamp s (j * (s.length - 1) / q + 1))) := by
  rw [quantileAt, quantileAt]
  have hqpos : (0:ℚ) < (q:ℚ) := by exact_mod_cast Nat.lt_of_lt_of_le Nat.zero_lt_one hq
  have hriq : i * (s.length - 1) % q < q := Nat.mod_lt _ (by omega)
  have hrjq : j * (s.length - 1) % q < q := Nat.mod_lt _ (by omega)
  have habi : nthClamp s (i * (s.length - 1) / q)
      ≤ nthClamp s (i * (s.length - 1) / q + 1) := nthClamp_mono hs (Nat.le_succ _)
  have habj : nthClamp s (j * (s.length - 1) / q)
      ≤ nthClamp s (j * (s.length - 1) / q + 1) := nthClamp_mono hs (Nat.le_succ _)
  have hti0 : (0:ℚ) ≤ ((i * (s.length - 1) % q : Nat) : ℚ) / (q : ℚ) := by positivity
  have htj0 : (0:ℚ) ≤ ((j * (s.length - 1) % q : Nat) : ℚ) / (q : ℚ) := by positivity
  have hti1 : ((i * (s.length - 1) % q : Nat) : ℚ) / (q : ℚ) < 1 := by
    rw [div_lt_one hqpos]
    exact_mod_cast hriq
  have hkij : i * (s.length - 1) / q ≤ j * (s.length - 1) / q :=
    Nat.div_le_div_right (Nat.mul_le_mul_right _ (le_of_lt hij))
  rcases eq_or_lt_of_le hkij with hkk | hklt
  · rw [← hkk]
    by_cases hm0 : s.length - 1 = 0
    · have hab : nthClamp s (i * (s.length - 1) / q)
          = nthClamp s (i * (s.length - 1) / q + 1) := by
        rw [nthClamp_const hm0 (i * (s.length - 1) / q + 1),
          nthClamp_const hm0 (i * (s.length - 1) / q)]
      constructor
      · intro _
        exact ⟨hab, hab.symm, Or.inr hab⟩
      · intro _
        rw [← hab]
        ring
    · have hm1 : 1 ≤ s.length - 1 := by omega
      have hrij : i * (s.length - 1) % q < j * (s.length - 1) % q := by
        have d1 := Nat.div_add_mod (i * (s.length - 1)) q
        have d2 := Nat.div_add_mod (j * (s.length - 1)) q
        have d3 : q * (i * (s.length - 1) / q) = q * (j * (s.length - 1) / q) := by
          rw [hkk]
        have hmm : i * (s.length - 1) < j * (s.length - 1) :=
          Nat.mul_lt_mul_of_lt_of_le hij (le_refl _) (by omega)
        omega
      have htij : ((i * (s.length - 1) % q : Nat) : ℚ) / (q : ℚ)
          < ((j * (s.length - 1) % q : Nat) : ℚ) / (q : ℚ) := by
        rw [div_lt_div_right hqpos]
        exact_mod_cast hrij
      rw [interp_eq_interp_same_iff habi htij]
      constructor
      · intro hab
        exact ⟨hab, hab.symm, Or.inr hab⟩
      · intro hcon
        exact hcon.1
  · have hbia : nthClamp s (i * (s.length - 1) / q + 1)
        ≤ nthClamp s (j * (s.length - 1) / q) := nthClamp_mono hs hklt
    rw [interp_eq_interp_iff habi habj hbia hti0 hti1 htj0]
    constructor
    · rintro ⟨h1, h2, h3 | h3⟩
      · exact ⟨h1, h2, Or.inl ((cast_div_eq_zero_iff hq).mp h3)⟩
      · exact ⟨h1, h2, Or.inr h3⟩
    · rintro ⟨h1, h2, h3 | h3⟩
      · exact ⟨h1, h2, Or.inl ((cast_div_eq_zero_iff hq).mpr h3)⟩
      · exact ⟨h1, h2, Or.inr h3⟩

theorem sorted_map_strictMono {s : List ℚ} (hs : s.Sorted (fun a b => a ≤ b))
    {f : ℚ → ℚ} (hf : StrictMono f) : (s.map f).Sorted (fun a b => a ≤ b) :=
  List.Pairwise.map f (fun _ _ hab => hf.le_iff_le.mpr hab) hs

theorem quantileAt_map_lt_iff {s : List ℚ} (hs : s.Sorted (fun a b => a ≤ b))
    (hne : s ≠ []) {q : Nat} (hq : 1 ≤ q) (i : Nat) {x : ℚ} (hx : x ∈ s)
    {f : ℚ → ℚ} (hf : StrictMono f) :
    (quantileAt (s.map f) i q < f x ↔ quantileAt s i q < x) := by
  rw [quantileAt_lt_iff (sorted_map_strictMono hs hf) hq i (List.mem_map_of_mem f hx),
    quantileAt_lt_iff hs hq i hx, List.length_map,
    nthClamp_map hne, nthClamp_map hne]
  simp [hf.lt_iff_lt, hf.le_iff_le]

theorem quantileAt_map_eq_iff {s : List ℚ} (hs : s.Sorted (fun a b => a ≤ b))
    (hne : s ≠ []) {q : Nat} (hq : 1 ≤ q) {i j : Nat} (hij : i < j)
    {f : ℚ → ℚ} (hf : StrictMono f) :
    (quantileAt (s.map f) i q = quantileAt (s.map f) j q ↔
      quantileAt s i q = quantileAt s j q) := by
  rw [quantileAt_eq_iff (sorted_map_strictMono hs hf) hq hij,
    quantileAt_eq_iff hs hq hij, List.length_map,
    nthClamp_map hne, nthClamp_map hne, nthClamp_map hne, nthClamp_map hne]
  simp [hf.injective.eq_iff]

theorem qEdges_length (vals : List ℚ) (q : Nat) : (qEdges vals q).length = q + 1 := by
  rw [qEdges, List.length_map, List.length_range]

theorem qEdges_headD (vals : List ℚ) (q : Nat) :
    (qEdges vals q).headD 0 = nthClamp (sortedVals vals) 0 := by
  rw [qEdges, List.range_succ_eq_map, List.map_cons, List.headD_cons, quantileAt_zero]

theorem quantile_top_mem_qEdges (vals : List ℚ) (q : Nat) :
    quantileAt (sortedVals vals) q q ∈ qEdges vals q := by
  rw [qEdges]
  exact List.mem_map_of_mem _ (List.mem_range.mpr (Nat.lt_succ_self q))

theorem pairwise_range_iff (P : Nat → Nat → Prop) (n : Nat) :
    (List.range n).Pairwise P ↔ ∀ i j, i < j → j < n → P i j := by
  rw [List.pairwise_iff_getElem]
  constructor
  · intro h i j hij hj
    have hr := h i j (by simpa using lt_trans hij hj) (by simpa using hj) hij
    simpa using hr
  · intro h i j hi hj hij
    have hj2 : j < n := by simpa using hj
    have hr := h i j hij hj2
    simpa using hr

theorem nodup_map_range_iff (g : Nat → ℚ) (n : Nat) :
    ((List.range n).map g).Nodup ↔ ∀ i j, i < j → j < n → g i ≠ g j := by
  unfold List.Nodup
  rw [List.pairwise_map, pairwise_range_iff]

theorem qEdges_nodup_iff (vals : List ℚ) (q : Nat) :
    (qEdges vals q).Nodup ↔ ∀ i j, i < j → j < q + 1 →
      quantileAt (sortedVals vals) i q ≠ quantileAt (sortedVals vals) j q := by
  rw [qEdges, nodup_map_range_iff]

theorem binOf_lt {vals : List ℚ} (hne : vals ≠ []) {q : Nat} (hq : 1 ≤ q)
    {x : ℚ} (hx : x ∈ vals) : binOf (qEdges vals q) x < q := by
  simp only [binOf]
  by_cases hh : x = (qEdges vals q).headD 0
  · rw [if_pos hh]
    omega
  · rw [if_neg hh]
    have hx2 : x ∈ sortedVals vals := mem_sortedVals.mpr hx
    have hmax : x ≤ quantileAt (sortedVals vals) q q := by
      rw [quantileAt_top _ hq]
      exact mem_le_nthClamp_last (sortedVals_sorted vals) hx2
    have hcount : (qEdges vals q).countP (fun e => decide (e < x)) ≠ q + 1 := by
      intro hc
      have hceq : (qEdges vals q).countP (fun e => decide (e < x))
          = (qEdges vals q).length := by rw [hc, qEdges_length]
      have hall := List.countP_eq_length.mp hceq
      have htop := hall _ (quantile_top_mem_qEdges vals q)
      simp only [decide_eq_true_eq] at htop
      exact absurd htop (not_lt.mpr hmax)
    have hle : (qEdges vals q).countP (fun e => decide (e < x)) ≤ q + 1 := by
      rw [← qEdges_length vals q]
      exact List.countP_le_length _
    omega

theorem binOf_map {vals : List ℚ} (hne : vals ≠ []) {q : Nat} (hq : 1 ≤ q)
    {x : ℚ} (hx : x ∈ vals) {f : ℚ → ℚ} (hf : StrictMono f) :
    binOf (qEdges (vals.map f) q) (f x) = binOf (qEdges vals q) x := by
  have hsne : sortedVals vals ≠ [] := sortedVals_ne_nil hne
  have hx2 : x ∈ sortedVals vals := mem_sortedVals.mpr hx
  simp only [binOf]
  have hhead : (qEdges (vals.map f) q).headD 0 = f ((qEdges vals q).headD 0) := by
    rw [qEdges_headD, qEdges_headD, sortedVals_map_strictMono f hf, nthClamp_map hsne]
  have hcond : (f x = (qEdges (vals.map f) q).headD 0) ↔ (x = (qEdges vals q).headD 0) := by
    rw [hhead, hf.injective.eq_iff]
  have hcount : (qEdges (vals.map f) q).countP (fun e => decide (e < f x))
      = (qEdges vals q).countP (fun e => decide (e < x)) := by
    rw [qEdges, qEdges, List.countP_map, List.countP_map]
    apply List.countP_congr
    intro i hi
    simp only [Function.comp, decide_eq_true_eq]
    rw [sortedVals_map_strictMono f hf]
    exact quantileAt_map_lt_iff (sortedVals_sorted vals) hsne hq i hx2 hf
  rw [hcount]
  exact congrArg (fun z => z - 1) (if_congr hcond rfl rfl)

theorem qcut_map_strictMono {vals : List ℚ} (hne : vals ≠ []) {q : Nat} (hq : 1 ≤ q)
    {f : ℚ → ℚ} (hf : StrictMono f) :
    qcut (vals.map f) q = qcut vals q := by
  have hsne : sortedVals vals ≠ [] := sortedVals_ne_nil hne
  have hnodup : (qEdges (vals.map f) q).Nodup ↔ (qEdges vals q).Nodup := by
    rw [qEdges_nodup_iff, qEdges_nodup_iff]
    constructor
    · intro h i j hij hj hc
      apply h i j hij hj
      rw [sortedVals_map_strictMono f hf]
      exact (quantileAt_map_eq_iff (sortedVals_sorted vals) hsne hq hij hf).mpr hc
    · intro h i j hij hj hc
      apply h i j hij hj
      rw [sortedVals_map_strictMono f hf] at hc
      exact (quantileAt_map_eq_iff (sortedVals_sorted vals) hsne hq hij hf).mp hc
  have hbins : (vals.map f).map (binOf (qEdges (vals.map f) q))
      = vals.map (binOf (qEdges vals q)) := by
    rw [List.map_map]
    apply List.map_congr_left
    intro x hx
    simp only [Function.comp]
    exact binOf_map hne hq hx hf
  simp only [qcut]
  by_cases hnd : (qEdges vals q).Nodup
  · rw [if_pos hnd, if_pos (hnodup.mpr hnd), hbins]
  · rw [if_neg hnd, if_neg (fun hc => hnd (hnodup.mp hc))]

theorem nthClamp_mem {s : List ℚ} (hne : s ≠ []) (n : Nat) : nthClamp s n ∈ s := by
  rw [nthClamp]
  have hlen : 0 < s.length := List.length_pos.mpr hne
  have hidx : min n (s.length - 1) < s.length :=
    lt_of_le_of_lt (min_le_right _ _) (Nat.sub_lt hlen Nat.one_pos)
  rw [List.getD_eq_getElem _ _ hidx]
  exact List.getElem_mem _

theorem quantileAt_const {s : List ℚ} (hne : s ≠ []) {c : ℚ}
    (hall : ∀ y ∈ s, y = c) (i q : Nat) : quantileAt s i q = c := by
  rw [quantileAt]
  rw [hall _ (nthClamp_mem hne _), hall _ (nthClamp_mem hne _)]
  ring

theorem qcut_const {vals : List ℚ} (hne : vals ≠ []) {q : Nat} (hq : 1 ≤ q)
    (hconst : ∀ x ∈ vals, x = vals.headD 0) :
    qcut vals q = Except.error PyErr.valueError := by
  have hsne : sortedVals vals ≠ [] := sortedVals_ne_nil hne
  have hall : ∀ y ∈ sortedVals vals, y = vals.headD 0 :=
    fun y hy => hconst y (mem_sortedVals.mp hy)
  have hnd : ¬ (qEdges vals q).Nodup := by
    rw [qEdges_nodup_iff]
    intro h
    apply h 0 1 Nat.zero_lt_one (by omega)
    rw [quantileAt_const hsne hall, quantileAt_const hsne hall]
  simp only [qcut]
  rw [if_neg hnd]

theorem linspace_length (a b : ℚ) (num : Nat) : (linspace a b num).length = num := by
  rw [linspace]
  by_cases h1 : num = 1
  · rw [if_pos h1, h1]
    rfl
  · rw [if_neg h1, List.length_map, List.length_range]

theorem get_edge_colors_ok (G : Graph) (attr : EdgeData → ℚ) {k : Nat} (cmapId : Nat)
    (a b : ℚ) (hk : 1 ≤ k) (hne : G.edges ≠ [])
    (hok : isOkB (qcut (attr_values G attr) k) = true) :
    okLength (get_edge_colors_by_attr G attr k cmapId a b) = some G.edges.length := by
  have hvne : attr_values G attr ≠ [] := by
    rw [attr_values]
    intro hc
    exact hne (List.map_eq_nil_iff.mp hc)
  rw [get_edge_colors_by_attr]
  cases hq : qcut (attr_values G attr) k with
  | error e =>
    rw [hq] at hok
    simp [isOkB] at hok
  | ok cats =>
    have hcats : cats = (attr_values G attr).map (binOf (qEdges (attr_values G attr) k)) := by
      simp only [qcut] at hq
      by_cases hnd : (qEdges (attr_values G attr) k).Nodup
      · rw [if_pos hnd] at hq
        injection hq with h2
        exact h2.symm
      · rw [if_neg hnd] at hq
        cases hq
    have hlookup : ∀ c ∈ cats, ∃ y,
        (match ((linspace a b k).map (fun x => Color.mk cmapId x))[c]? with
         | some col => Except.ok col
         | none => Except.error PyErr.indexError) = Except.ok y := by
      intro c hc
      rw [hcats] at hc
      obtain ⟨x, hxmem, hxc⟩ := List.mem_map.mp hc
      have hclt : c < k := by
        rw [← hxc]
        exact binOf_lt hvne hk hxmem
      have hlen : ((linspace a b k).map (fun x => Color.mk cmapId x)).length = k := by
        rw [List.length_map, linspace_length]
      have hlt2 : c < ((linspace a b k).map (fun x => Color.mk cmapId x)).length := by
        rw [hlen]
        exact hclt
      exact ⟨_, by rw [List.getElem?_eq_getElem hlt2]⟩
    obtain ⟨out, hout, hlen2⟩ := mapME_ok_of_forall _ cats hlookup
    change okLength (mapME _ cats) = _
    rw [hout]
    rw [okLength, hlen2, hcats, List.length_map, attr_values, List.length_map]

/-- Claim C2, amended: when the quantile bin edges of the attribute
distribution are distinct, get_edge_colors_by_attr assigns every edge
exactly one color, and bin membership is determined solely by the edge's
rank within the sorted attribute distribution (both the bin assignment and
the success of the binning are invariant under strictly monotone rescaling
of the attribute); in the degenerate case of duplicate quantile bin edges
(in particular when all attribute values are equal), the quantile cut
raises a ValueError (pandas: Bin edges must be unique) rather than
producing fewer effective bins. -/
theorem claim_c2_quantile_binning (G : Graph) (attr : EdgeData → ℚ)
    (k cmapId : Nat) (a b : ℚ) (f : ℚ → ℚ)
    (hk : 1 ≤ k) (hne : G.edges ≠ []) (hf : StrictMono f) :
    (isOkB (qcut (attr_values G attr) k) = true →
      okLength (get_edge_colors_by_attr G attr k cmapId a b) = some G.edges.length) ∧
    qcut ((attr_values G attr).map f) k = qcut (attr_values G attr) k ∧
    ((attr_values G attr).all
        (fun x => decide (x = (attr_values G attr).headD 0)) = true →
      qcut (attr_values G attr) k = Except.error PyErr.valueError) := by
  have hvne : attr_values G attr ≠ [] := by
    rw [attr_values]
    intro hc
    exact hne (List.map_eq_nil_iff.mp hc)
  refine ⟨fun hok => get_edge_colors_ok G attr cmapId a b hk hne hok,
    qcut_map_strictMono hvne hk hf, fun hall => qcut_const hvne hk ?_⟩
  intro x hx
  exact of_decide_eq_true (List.all_eq_true.mp hall x hx)

theorem claim_c2_quantile_binning_witness :
    ((isOkB (qcut (attr_values exGraph EdgeData.length) 2) = true →
      okLength (get_edge_colors_by_attr exGraph EdgeData.length 2 0 0 1)
        = some exGraph.edges.length) ∧
    qcut ((attr_values exGraph EdgeData.length).map (fun x => 2 * x + 1)) 2
      = qcut (attr_values exGraph EdgeData.length) 2 ∧
    ((attr_values exGraph EdgeData.length).all
        (fun x => decide (x = (attr_values exGraph EdgeData.length).headD 0)) = true →
      qcut (attr_values exGraph EdgeData.length) 2
        = Except.error PyErr.valueError)) := by
  have hf : StrictMono (fun x : ℚ => 2 * x + 1) := by
    intro u v huv
    simp only
    linarith
  exact claim_c2_quantile_binning exGraph EdgeData.length 2 0 0 1
    (fun x => 2 * x + 1) (by decide) (by decide) hf

/-- Claim C2 counterexample: with all attribute values equal (7, 7, 7:
fewer distinct values than the 5 requested bins), get_edge_colors_by_attr
raises a ValueError (pandas: Bin edges must be unique) instead of
producing fewer effective bins, so no edge receives a color. -/
theorem claim_c2_counterexample :
    attr_values eqAttrGraph EdgeData.length = [7, 7, 7] ∧
    get_edge_colors_by_attr eqAttrGraph EdgeData.length 5 0 0 1
      = Except.error PyErr.valueError :=
  ⟨rfl, by with_unfolding_all rfl⟩
